import Mathlib

/-! Shallow embedding of the contrastive-learning core of the cssl
repository (`src/model/model.py`) and of its linear-evaluation harness
(`src/linear.py`).  Tensors are modelled as lists of rationals; the
random inputs of the code (queue initialisation, `torch.randperm`) are
passed in as explicit parameters, and the host framework's autograd
semantics is modelled explicitly where a claim depends on it. -/

namespace CSSL

/-- Per-sample dot product, `torch.einsum('nc,nc->n', ...)` restricted to
one row pair: the sum of elementwise products of two vectors. -/
def dot (u v : List ℚ) : ℚ := (List.zipWith (fun a b => a * b) u v).sum

/-- One iteration of the loop of `MoCov1._momentum_update_key_encoder`
(model.py line 80): `param_k.data = param_k.data * self.m +
param_q.data * (1. - self.m)`, elementwise over one parameter tensor
flattened to a list; `pq` is the query tensor, `pk` the key tensor. -/
def tensorMomentum (m : ℚ) (pq pk : List ℚ) : List ℚ :=
  List.zipWith (fun qe ke => ke * m + qe * (1 - m)) pq pk

/-- `MoCov1._momentum_update_key_encoder` (model.py lines 76-80): the two
encoders' parameter lists are zipped and every key tensor is rewritten
by the momentum rule; parameters are modelled as lists of flattened
tensors. -/
def momentumUpdateKeyEncoder (m : ℚ) (qs ks : List (List ℚ)) : List (List ℚ) :=
  List.zipWith (tensorMomentum m) qs ks

/-- Parameter state of the dual encoder pair: query parameters, key
parameters, and the `requires_grad` flag of the key parameters. -/
structure DualEncoder where
  qParams : List (List ℚ)
  kParams : List (List ℚ)
  kGrad : Bool
deriving DecidableEq

/-- Construction of the pair in `MoCov1.__init__` (model.py lines 62-68):
`param_k.data.copy_(param_q.data)` copies every query tensor into the
matching key tensor and `param_k.requires_grad = False` marks the key
stack non-trainable. -/
def initDual (q0 : List (List ℚ)) : DualEncoder := ⟨q0, q0, false⟩

/-- Momentum update as a state transformer on the dual encoder pair: only
the key parameters are rewritten (model.py lines 76-80). -/
def momentumUpdate (m : ℚ) (s : DualEncoder) : DualEncoder :=
  { s with kParams := momentumUpdateKeyEncoder m s.qParams s.kParams }

/-- Autograd and optimizer semantics of the host framework: a backward
pass followed by an optimizer step adds a gradient-derived increment to
every parameter tensor whose `requires_grad` flag is true and leaves
every other parameter untouched; `param_k.requires_grad = False`
(model.py line 68) excludes the key parameters. -/
def gradientStep (g : List (List ℚ)) (s : DualEncoder) : DualEncoder :=
  { s with
      qParams := List.zipWith (List.zipWith (fun a b => a + b)) s.qParams g
      kParams :=
        if s.kGrad then List.zipWith (List.zipWith (fun a b => a + b)) s.kParams g
        else s.kParams }

/-- One training step as seen by the encoder parameters: the momentum
update executed inside `forward` (model.py lines 146-147) followed by
the surrounding loop's backward pass and optimizer step. -/
def trainStep (m : ℚ) (g : List (List ℚ)) (s : DualEncoder) : DualEncoder :=
  gradientStep g (momentumUpdate m s)

/-- A sequence of training steps, one gradient per step. -/
def trainSteps (m : ℚ) (gs : List (List (List ℚ))) (s : DualEncoder) : DualEncoder :=
  gs.foldl (fun t g => trainStep m g t) s

/-- Queue state of a MoCo module: the negative queue stored as the list of
its `K` columns (the code keeps a `feature_dim × K` buffer and writes
`keys.t()` into a block of columns, so a column is one stored
embedding), together with the write pointer `queue_ptr`. -/
structure QueueState where
  queue : List (List ℚ)
  ptr : ℕ
deriving DecidableEq

/-- Queue construction in `MoCov1.__init__` (model.py lines 70-74): the
buffer is filled with normalised random content — passed here as the
parameter `q0` — and the pointer starts at zero.  Construction performs
no divisibility validation: the enqueue batch size is not known here. -/
def mocoInitQueue (q0 : List (List ℚ)) : QueueState := ⟨q0, 0⟩

/-- `MoCov1._dequeue_and_enqueue` (model.py lines 82-93).  The assertion
`self.K % batch_size == 0` (a `ZeroDivisionError` for an empty batch)
and the shape constraint of the slice assignment
`self.queue[:, ptr:ptr + batch_size] = keys.t()` are the guard; where
the Python code raises, the model returns `none`.  On success the batch
overwrites columns `[ptr, ptr+b)` and the pointer becomes
`(ptr + b) % K`. -/
def dequeueAndEnqueue (K : ℕ) (keys : List (List ℚ)) (s : QueueState) :
    Option QueueState :=
  let b := keys.length
  if 0 < b ∧ K % b = 0 ∧ s.ptr + b ≤ K then
    some ⟨s.queue.take s.ptr ++ keys ++ s.queue.drop (s.ptr + b), (s.ptr + b) % K⟩
  else none

/-- A sequence of enqueue operations, one key batch per training step; a
raised assertion propagates. -/
def enqueueAll (K : ℕ) (batches : List (List (List ℚ))) (s : QueueState) :
    Option QueueState :=
  batches.foldl (fun t keys => t.bind (dequeueAndEnqueue K keys)) (some s)

/-- Torch advanced indexing `x[idx]` along the batch axis: row `i` of the
result is row `idx[i]` of `x`.  Out-of-range reads cannot occur for the
in-range index lists produced by `randperm`; `d` is a dummy default. -/
def gather {α : Type} (d : α) (x : List α) (idx : List ℕ) : List α :=
  idx.map (fun i => x.getD i d)

/-- Torch `argsort`, specialised to the permutations of `range n` produced
by `randperm` — its only use in model.py (line 101): since the sorted
values of such a list are `0, 1, …, n-1` in order, position `j` of the
result is the position at which the value `j` occurs in `idx`. -/
def argsort (idx : List ℕ) : List ℕ :=
  (List.range idx.length).map (fun j => idx.indexOf j)

/-- `MoCov1._batch_shuffle_single_gpu` (model.py lines 95-103), with the
random permutation drawn by `torch.randperm` passed explicitly as
`idxShuffle`: returns `x[idx_shuffle]` together with the restoring
index `idx_unshuffle = argsort(idx_shuffle)`. -/
def batchShuffleSingleGpu {α : Type} (d : α) (x : List α) (idxShuffle : List ℕ) :
    List α × List ℕ :=
  (gather d x idxShuffle, argsort idxShuffle)

/-- `MoCov1._batch_unshuffle_single_gpu` (model.py lines 105-108):
`x[idx_unshuffle]`. -/
def batchUnshuffleSingleGpu {α : Type} (d : α) (x : List α)
    (idxUnshuffle : List ℕ) : List α :=
  gather d x idxUnshuffle

/-- Logit assembly of `MoCov1.contrastive_loss` (model.py lines 124-135):
row `i` is the positive logit `q_i · k_i` followed by the negative
logits `q_i · queue_col_j` (`einsum('nc,ck->nk')` against the queue
snapshot, whose columns are listed here), every entry divided by the
temperature `T`. -/
def contrastiveLogits (T : ℚ) (queue q k : List (List ℚ)) : List (List ℚ) :=
  List.zipWith
    (fun qi ki => (dot qi ki :: queue.map (fun col => dot qi col)).map
      (fun z => z / T))
    q k

/-- Labels of `contrastive_loss` (model.py line 138):
`torch.zeros(logits.shape[0])`, the positive always being class 0. -/
def mocoLabels (n : ℕ) : List ℕ := List.replicate n 0

/-- Cross-entropy of one logit row against an integer class label, as
`nn.CrossEntropyLoss` computes it for one sample:
`log (Σ_j exp logits_j) - logits_label`. -/
noncomputable def crossEntropyRow (logits : List ℚ) (label : ℕ) : ℝ :=
  Real.log ((logits.map (fun z => Real.exp ((z : ℚ) : ℝ))).sum)
    - ((logits.getD label 0 : ℚ) : ℝ)

/-- `nn.CrossEntropyLoss` with its default mean reduction over the batch. -/
noncomputable def crossEntropyLoss (logits : List (List ℚ)) (labels : List ℕ) : ℝ :=
  (List.zipWith crossEntropyRow logits labels).sum / (logits.length : ℝ)

/-- Full state of a `MoCov1` module: the hyperparameters `K`, `m`, `T`
(model.py lines 58-60), the two encoder parameter stacks, the queue
columns and the write pointer. -/
structure MoCoState where
  K : ℕ
  m : ℚ
  T : ℚ
  qParams : List (List ℚ)
  kParams : List (List ℚ)
  queue : List (List ℚ)
  ptr : ℕ

/-- The momentum update of `forward` (model.py lines 146-147) on the full
module state: only the key parameters change. -/
def momentumStep (st : MoCoState) : MoCoState :=
  { st with kParams := momentumUpdateKeyEncoder st.m st.qParams st.kParams }

/-- `MoCov1.contrastive_loss` (model.py lines 110-142), with the encoder
architecture abstracted as `enc` (parameters applied to an image batch)
and the fresh random permutation `σ` passed explicitly: the query
embeddings, the keys computed through shuffle, key encoder and
unshuffle, the temperature-scaled logits with the positive in column
zero, and the mean cross-entropy against the all-zero labels; returns
`(loss, q, k)` as the code does. -/
noncomputable def contrastiveLoss {S : Type}
    (enc : List (List ℚ) → List S → List (List ℚ)) (dS : S) (σ : List ℕ)
    (st : MoCoState) (imQ imK : List S) :
    ℝ × List (List ℚ) × List (List ℚ) :=
  let q := enc st.qParams imQ
  let p := batchShuffleSingleGpu dS imK σ
  let k0 := enc st.kParams p.1
  let k := batchUnshuffleSingleGpu [] k0 p.2
  let logits := contrastiveLogits st.T st.queue q k
  (crossEntropyLoss logits (mocoLabels logits.length), q, k)

/-- `MoCov1.forward` (model.py lines 144-156): the momentum update of the
key parameters, the two symmetric contrastive-loss computations with
their two fresh shuffle permutations `σ1` and `σ2`, the summed loss,
and exactly one enqueue of `cat([k1, k2])`; a failing enqueue assertion
propagates as `none`. -/
noncomputable def mocoForward {S : Type}
    (enc : List (List ℚ) → List S → List (List ℚ)) (dS : S) (σ1 σ2 : List ℕ)
    (st : MoCoState) (im1 im2 : List S) : Option (ℝ × MoCoState) :=
  let st1 := momentumStep st
  let r12 := contrastiveLoss enc dS σ1 st1 im1 im2
  let r21 := contrastiveLoss enc dS σ2 st1 im2 im1
  let loss := r12.1 + r21.1
  let k := r21.2.2 ++ r12.2.2
  match dequeueAndEnqueue st1.K k ⟨st1.queue, st1.ptr⟩ with
  | some qs => some (loss, { st1 with queue := qs.queue, ptr := qs.ptr })
  | none => none

/-- `MoCov2._momentum_update_key_encoder` (model.py lines 208-212),
translated separately from the `MoCov2` class for comparison with the
`MoCov1` translation. -/
def momentumUpdateKeyEncoderV2 (m : ℚ) (qs ks : List (List ℚ)) :
    List (List ℚ) :=
  List.zipWith
    (fun pq pk => List.zipWith (fun qe ke => ke * m + qe * (1 - m)) pq pk) qs ks

/-- `MoCov2._dequeue_and_enqueue` (model.py lines 214-225), translated
separately from the `MoCov2` class. -/
def dequeueAndEnqueueV2 (K : ℕ) (keys : List (List ℚ)) (s : QueueState) :
    Option QueueState :=
  let b := keys.length
  if 0 < b ∧ K % b = 0 ∧ s.ptr + b ≤ K then
    some ⟨s.queue.take s.ptr ++ keys ++ s.queue.drop (s.ptr + b), (s.ptr + b) % K⟩
  else none

/-- `MoCov2._batch_shuffle_single_gpu` (model.py lines 227-236), translated
separately from the `MoCov2` class. -/
def batchShuffleSingleGpuV2 {α : Type} (d : α) (x : List α)
    (idxShuffle : List ℕ) : List α × List ℕ :=
  (idxShuffle.map (fun i => x.getD i d),
    (List.range idxShuffle.length).map (fun j => idxShuffle.indexOf j))

/-- `MoCov2._batch_unshuffle_single_gpu` (model.py lines 238-241),
translated separately from the `MoCov2` class. -/
def batchUnshuffleSingleGpuV2 {α : Type} (d : α) (x : List α)
    (idxUnshuffle : List ℕ) : List α :=
  idxUnshuffle.map (fun i => x.getD i d)

/-- Logit assembly of `MoCov2.contrastive_loss` (model.py lines 257-268),
translated separately from the `MoCov2` class. -/
def contrastiveLogitsV2 (T : ℚ) (queue q k : List (List ℚ)) : List (List ℚ) :=
  List.zipWith
    (fun qi ki => (dot qi ki :: queue.map (fun col => dot qi col)).map
      (fun z => z / T))
    q k

/-- `MoCov2.contrastive_loss` (model.py lines 243-275), translated
separately from the `MoCov2` class. -/
noncomputable def contrastiveLossV2 {S : Type}
    (enc : List (List ℚ) → List S → List (List ℚ)) (dS : S) (σ : List ℕ)
    (st : MoCoState) (imQ imK : List S) :
    ℝ × List (List ℚ) × List (List ℚ) :=
  let q := enc st.qParams imQ
  let p := batchShuffleSingleGpuV2 dS imK σ
  let k0 := enc st.kParams p.1
  let k := batchUnshuffleSingleGpuV2 [] k0 p.2
  let logits := contrastiveLogitsV2 st.T st.queue q k
  (crossEntropyLoss logits (mocoLabels logits.length), q, k)

/-- `MoCov2.forward` (model.py lines 277-289), translated separately from
the `MoCov2` class. -/
noncomputable def mocoForwardV2 {S : Type}
    (enc : List (List ℚ) → List S → List (List ℚ)) (dS : S) (σ1 σ2 : List ℕ)
    (st : MoCoState) (im1 im2 : List S) : Option (ℝ × MoCoState) :=
  let st1 : MoCoState :=
    { st with kParams := momentumUpdateKeyEncoderV2 st.m st.qParams st.kParams }
  let r12 := contrastiveLossV2 enc dS σ1 st1 im1 im2
  let r21 := contrastiveLossV2 enc dS σ2 st1 im2 im1
  let loss := r12.1 + r21.1
  let k := r21.2.2 ++ r12.2.2
  match dequeueAndEnqueueV2 st1.K k ⟨st1.queue, st1.ptr⟩ with
  | some qs => some (loss, { st1 with queue := qs.queue, ptr := qs.ptr })
  | none => none

/-- Selection of the classification head in `Net.__init__`
(linear.py lines 16-45): each recognised model-name tag binds a linear
head of the variant's feature width, and any other tag reaches
`assert(False)`, a fatal error modelled as `none`. -/
def netHeadWidth (modelName : String) : Option ℕ :=
  if modelName = "mocov1" then some 512
  else if modelName = "mocov2" then some 512
  else if modelName = "simclrv1" then some 2048
  else if modelName = "simclrv2" then some 1024
  else none

/-- Parameter list of `train_val` in linear.py line 56:
`def train_val(net, data_loader, train_optimizer)`; none of the
parameters has a default value. -/
def trainValParams : List String := ["net", "data_loader", "train_optimizer"]

/-- Positional arguments of the per-epoch call in linear.py line 124:
`train_val(model, train_loader, optimizer, scheduler)`. -/
def trainValCallArgs : List String := ["model", "train_loader", "optimizer", "scheduler"]

/-- Python call-binding semantics for a function with only plain positional
parameters and no defaults: a call binds exactly when the number of
positional arguments equals the number of parameters; otherwise the
interpreter raises `TypeError` before the body runs. -/
def pythonCallBinds (params args : List String) : Bool :=
  params.length == args.length

end CSSL

namespace CSSL

/-- Claim C1: one momentum update rewrites every key parameter to
`k * m + q * (1 - m)` elementwise and leaves the query parameters
unchanged (model.py lines 76-80). -/
theorem momentumUpdate_key_formula (m : ℚ) (s : DualEncoder) (i j : ℕ)
    (hm0 : 0 < m) (hm1 : m < 1)
    (hlen : s.kParams.length = s.qParams.length)
    (hi : i < s.qParams.length)
    (hrow : (s.kParams.getD i []).length = (s.qParams.getD i []).length)
    (hj : j < (s.qParams.getD i []).length) :
    ((momentumUpdate m s).kParams.getD i []).getD j 0
        = (s.kParams.getD i []).getD j 0 * m + (s.qParams.getD i []).getD j 0 * (1 - m)
      ∧ (momentumUpdate m s).qParams = s.qParams := by
  constructor
  · have hiz : i < (List.zipWith (tensorMomentum m) s.qParams s.kParams).length := by
      simp [List.length_zipWith, hlen, hi]
    have hik : i < s.kParams.length := hlen ▸ hi
    have hjq : j < (s.qParams.getD i []).length := hj
    have hjk : j < (s.kParams.getD i []).length := hrow ▸ hj
    rw [momentumUpdate]
    simp only [momentumUpdateKeyEncoder]
    rw [List.getD_eq_getElem _ _ hiz, List.getElem_zipWith]
    have hq : s.qParams.getD i [] = s.qParams[i] := List.getD_eq_getElem _ _ hi
    have hk : s.kParams.getD i [] = s.kParams[i] := List.getD_eq_getElem _ _ hik
    have hjq2 : j < s.qParams[i].length := by rw [← hq]; exact hjq
    have hjk2 : j < s.kParams[i].length := by rw [← hk]; exact hjk
    have hjz : j < (List.zipWith (fun qe ke => ke * m + qe * (1 - m))
        s.qParams[i] s.kParams[i]).length := by
      simp only [List.length_zipWith]
      exact lt_min hjq2 hjk2
    rw [tensorMomentum, List.getD_eq_getElem _ _ hjz, List.getElem_zipWith]
    rw [hq, hk, List.getD_eq_getElem _ _ hjq2, List.getD_eq_getElem _ _ hjk2]
  · rfl

/-- Witness for C1 at a concrete instance. -/
theorem momentumUpdate_key_formula_witness :
    ((0:ℚ) < 1/2 ∧ (1:ℚ)/2 < 1
        ∧ ([[(3:ℚ), 5]] : List (List ℚ)).length = ([[(1:ℚ), 2]] : List (List ℚ)).length
        ∧ 0 < ([[(1:ℚ), 2]] : List (List ℚ)).length
        ∧ (([[(3:ℚ), 5]] : List (List ℚ)).getD 0 []).length
            = (([[(1:ℚ), 2]] : List (List ℚ)).getD 0 []).length
        ∧ 1 < (([[(1:ℚ), 2]] : List (List ℚ)).getD 0 []).length)
      ∧ (((momentumUpdate (1/2) ⟨[[1, 2]], [[3, 5]], false⟩).kParams.getD 0 []).getD 1 0
            = (([[(3:ℚ), 5]] : List (List ℚ)).getD 0 []).getD 1 0 * (1/2)
                + (([[(1:ℚ), 2]] : List (List ℚ)).getD 0 []).getD 1 0 * (1 - 1/2)
          ∧ (momentumUpdate (1/2) ⟨[[1, 2]], [[3, 5]], false⟩).qParams = [[1, 2]]) :=
  ⟨by norm_num,
    momentumUpdate_key_formula (1/2) ⟨[[1, 2]], [[3, 5]], false⟩ 0 1
      (by norm_num) (by norm_num) (by decide) (by decide) (by decide) (by decide)⟩

/-- Claim C2: at construction the key parameters equal the query
parameters and are marked non-trainable; the flag stays false through
any sequence of training steps; and a training step from a
non-trainable-key state rewrites the key parameters by the momentum
rule alone, with the backward pass contributing nothing to them. -/
theorem keyEncoder_init_and_no_grad (q0 : List (List ℚ)) (m : ℚ)
    (gs : List (List (List ℚ))) (g : List (List ℚ)) (s : DualEncoder)
    (hs : s.kGrad = false) :
    (initDual q0).kParams = (initDual q0).qParams
      ∧ (initDual q0).kGrad = false
      ∧ (trainSteps m gs (initDual q0)).kGrad = false
      ∧ (trainStep m g s).kParams = momentumUpdateKeyEncoder m s.qParams s.kParams
      ∧ (gradientStep g s).kParams = s.kParams := by
  refine ⟨rfl, rfl, ?_, ?_, ?_⟩
  · have h : ∀ (gl : List (List (List ℚ))) (t : DualEncoder),
        (trainSteps m gl t).kGrad = t.kGrad := by
      intro gl
      induction gl with
      | nil => intro t; rfl
      | cons g' gl' ih =>
          intro t
          have : trainSteps m (g' :: gl') t = trainSteps m gl' (trainStep m g' t) := rfl
          rw [this, ih]
          rfl
    exact h gs (initDual q0)
  · simp [trainStep, gradientStep, momentumUpdate, hs]
  · simp [gradientStep, hs]

/-- Witness for C2 at a concrete instance. -/
theorem keyEncoder_init_and_no_grad_witness :
    (DualEncoder.kGrad ⟨[[(2:ℚ)]], [[4]], false⟩ = false)
      ∧ ((initDual [[(1:ℚ)]]).kParams = (initDual [[(1:ℚ)]]).qParams
        ∧ (initDual [[(1:ℚ)]]).kGrad = false
        ∧ (trainSteps (1/2) [[[(1:ℚ)]]] (initDual [[(1:ℚ)]])).kGrad = false
        ∧ (trainStep (1/2) [[(7:ℚ)]] ⟨[[2]], [[4]], false⟩).kParams
            = momentumUpdateKeyEncoder (1/2) [[(2:ℚ)]] [[(4:ℚ)]]
        ∧ (gradientStep [[(7:ℚ)]] ⟨[[2]], [[4]], false⟩).kParams = [[(4:ℚ)]]) :=
  ⟨rfl, keyEncoder_init_and_no_grad [[(1:ℚ)]] (1/2) [[[(1:ℚ)]]] [[(7:ℚ)]]
    ⟨[[2]], [[4]], false⟩ rfl⟩

end CSSL

namespace CSSL

/-- A full cycle of enqueues overwrites the whole buffer: starting from a
state whose first `done.length` columns hold the already-enqueued
batches and whose remaining columns are `suffix`, enqueueing batches
that exactly cover `suffix` succeeds and leaves the buffer holding
`done` followed by those batches, with the pointer wrapped to zero. -/
theorem enqueueAll_cycle (K b : ℕ) (hb : 0 < b) (hdiv : K % b = 0) :
    ∀ (batches : List (List (List ℚ))) (done suffix : List (List ℚ)),
      batches ≠ [] → (∀ B ∈ batches, B.length = b) →
      suffix.length = batches.length * b → done.length + suffix.length = K →
      enqueueAll K batches ⟨done ++ suffix, done.length⟩
        = some ⟨done ++ batches.flatten, 0⟩ := by
  intro batches
  induction batches with
  | nil => intro _ _ hne _ _ _; exact absurd rfl hne
  | cons B rest ih =>
      intro done suffix _ hB hs hK
      have hBlen : B.length = b := hB B (by simp)
      have hbK : b ≤ suffix.length := by
        rw [hs]; simpa using Nat.mul_le_mul_right b (Nat.succ_le_succ (Nat.zero_le _))
      have hptr : done.length + B.length ≤ K := by
        rw [hBlen]; omega
      have hcond : 0 < B.length ∧ K % B.length = 0
          ∧ done.length + B.length ≤ K := by
        refine ⟨by omega, by rw [hBlen]; exact hdiv, hptr⟩
      have hstep : dequeueAndEnqueue K B ⟨done ++ suffix, done.length⟩
          = some ⟨done ++ B ++ suffix.drop b,
              (done.length + b) % K⟩ := by
        simp only [dequeueAndEnqueue]
        rw [if_pos hcond]
        have htake : (done ++ suffix).take done.length = done := List.take_left done suffix
        have hdrop : (done ++ suffix).drop (done.length + B.length)
            = suffix.drop B.length := by
          rw [← List.drop_drop]
          simp [List.drop_left]
        rw [htake, hdrop, hBlen]
      have hfold : enqueueAll K (B :: rest) ⟨done ++ suffix, done.length⟩
          = enqueueAll K rest ⟨done ++ B ++ suffix.drop b, (done.length + b) % K⟩ := by
        simp only [enqueueAll, List.foldl_cons, Option.some_bind]
        rw [hstep]
      rw [hfold]
      rcases eq_or_ne rest [] with hrest | hrest
      · subst hrest
        have hsb : suffix.length = b := by simpa using hs
        have hKdone : done.length + b = K := by omega
        have hdropnil : suffix.drop b = [] := by
          rw [← hsb]; exact List.drop_length suffix
        rw [hdropnil]
        simp [enqueueAll, hKdone, Nat.mod_self]
      · have hrl : 1 ≤ rest.length := by
          rcases rest with _ | ⟨r, rs⟩
          · exact absurd rfl hrest
          · simp
        have hmul : suffix.length = rest.length * b + b := by
          rw [hs, List.length_cons, Nat.succ_mul]
        have h2b : 2 * b ≤ suffix.length := by
          have : 1 * b ≤ rest.length * b := Nat.mul_le_mul_right b hrl
          omega
        have hlt : done.length + b < K := by omega
        have hmod : (done.length + b) % K = done.length + b := Nat.mod_eq_of_lt hlt
        have hdonelen : (done ++ B).length = done.length + b := by
          simp [List.length_append, hBlen]
        have hsuf : (suffix.drop b).length = rest.length * b := by
          simp only [List.length_drop]
          omega
        have hKsum : (done ++ B).length + (suffix.drop b).length = K := by
          rw [hdonelen, hsuf]
          omega
        have hBrest : ∀ B' ∈ rest, B'.length = b := fun B' hB' =>
          hB B' (List.mem_cons_of_mem _ hB')
        rw [hmod, ← hdonelen,
          ih (done ++ B) (suffix.drop b) hrest hBrest hsuf hKsum]
        simp [List.flatten]

end CSSL

namespace CSSL

/-- Claim C3: an enqueue whose batch size `b` divides the capacity `K`
writes the batch contiguously into columns `[ptr, ptr+b)` and advances
the pointer to `(ptr + b) % K`; consequently `K / b` enqueues into a
freshly constructed queue overwrite the buffer completely, leaving
exactly those batches in insertion order with the initial content
fully evicted (FIFO). -/
theorem dequeueAndEnqueue_fifo (K b : ℕ) (hb : 0 < b) (hdiv : K % b = 0)
    (hK : 0 < K) :
    (∀ (keys : List (List ℚ)) (s : QueueState), keys.length = b → s.ptr + b ≤ K →
        dequeueAndEnqueue K keys s
          = some ⟨s.queue.take s.ptr ++ keys ++ s.queue.drop (s.ptr + b),
              (s.ptr + b) % K⟩)
      ∧ (∀ (batches : List (List (List ℚ))) (q0 : List (List ℚ)),
          (∀ B ∈ batches, B.length = b) → batches.length = K / b →
          q0.length = K →
          enqueueAll K batches (mocoInitQueue q0) = some ⟨batches.flatten, 0⟩) := by
  constructor
  · intro keys s hkeys hptr
    have hcond : 0 < keys.length ∧ K % keys.length = 0
        ∧ s.ptr + keys.length ≤ K := by
      rw [hkeys]; exact ⟨hb, hdiv, hptr⟩
    simp only [dequeueAndEnqueue]
    rw [if_pos hcond, hkeys]
  · intro batches q0 hB hlen hq0
    have hdvd : b ∣ K := Nat.dvd_of_mod_eq_zero hdiv
    have hbK : b ≤ K := Nat.le_of_dvd hK hdvd
    have hpos : 0 < K / b := Nat.div_pos hbK hb
    have hne : batches ≠ [] := by
      intro h
      rw [h] at hlen
      simp at hlen
      omega
    have hq0len : q0.length = batches.length * b := by
      rw [hq0, hlen, Nat.div_mul_cancel hdvd]
    have hcyc := enqueueAll_cycle K b hb hdiv batches [] q0 hne hB
      (by rw [hq0len]) (by simpa using hq0)
    simpa [mocoInitQueue] using hcyc

/-- Witness for C3 with capacity 4, batch size 2 and two marker batches. -/
theorem dequeueAndEnqueue_fifo_witness :
    (0 < 2 ∧ 4 % 2 = 0 ∧ 0 < 4
        ∧ (∀ B ∈ ([[[(1:ℚ)], [2]], [[3], [4]]] : List (List (List ℚ))),
            B.length = 2)
        ∧ ([[[(1:ℚ)], [2]], [[3], [4]]] : List (List (List ℚ))).length = 4 / 2
        ∧ (List.replicate 4 [(0:ℚ)]).length = 4)
      ∧ enqueueAll 4 [[[(1:ℚ)], [2]], [[3], [4]]]
          (mocoInitQueue (List.replicate 4 [(0:ℚ)]))
          = some ⟨([[[(1:ℚ)], [2]], [[3], [4]]] : List (List (List ℚ))).flatten, 0⟩ :=
  ⟨by decide,
    (dequeueAndEnqueue_fifo 4 2 (by decide) (by decide) (by decide)).2
      [[[(1:ℚ)], [2]], [[3], [4]]] (List.replicate 4 [(0:ℚ)])
      (by decide) (by decide) (by decide)⟩

/-- Counterexample to claim C7 as stated: constructing a MoCo queue of
capacity 8 succeeds with no divisibility validation, and the violated
precondition surfaces only when an enqueue of a non-dividing batch
(size 3) is attempted mid-training — that is where the assertion
raises. -/
theorem divisibility_check_not_at_construction :
    mocoInitQueue (List.replicate 8 [(0:ℚ)]) = ⟨List.replicate 8 [(0:ℚ)], 0⟩
      ∧ dequeueAndEnqueue 8 [[(1:ℚ)], [1], [1]]
          (mocoInitQueue (List.replicate 8 [(0:ℚ)])) = none :=
  ⟨rfl, by decide⟩

/-- Claim C7 amended: the divisibility precondition is validated at each
enqueue — `_dequeue_and_enqueue` asserts `self.K % batch_size == 0` and
raises fatally at the first enqueue whose batch size does not divide
`K` — while construction performs no divisibility validation and always
succeeds. -/
theorem divisibility_checked_at_enqueue (K : ℕ) (keys : List (List ℚ))
    (s : QueueState) (q0 : List (List ℚ))
    (hdiv : ¬ K % keys.length = 0) :
    mocoInitQueue q0 = ⟨q0, 0⟩ ∧ dequeueAndEnqueue K keys s = none := by
  refine ⟨rfl, ?_⟩
  simp only [dequeueAndEnqueue]
  rw [if_neg]
  intro h
  exact hdiv h.2.1

/-- Witness for the amended C7 with capacity 8 and batch size 3. -/
theorem divisibility_checked_at_enqueue_witness :
    (¬ (8 % ([[(1:ℚ)], [1], [1]] : List (List ℚ)).length = 0))
      ∧ (mocoInitQueue [[(5:ℚ)]] = ⟨[[(5:ℚ)]], 0⟩
        ∧ dequeueAndEnqueue 8 [[(1:ℚ)], [1], [1]]
            ⟨List.replicate 8 [(0:ℚ)], 4⟩ = none) :=
  ⟨by decide,
    divisibility_checked_at_enqueue 8 [[(1:ℚ)], [1], [1]]
      ⟨List.replicate 8 [(0:ℚ)], 4⟩ [[(5:ℚ)]] (by decide)⟩

end CSSL

namespace CSSL

/-- Element access of `gather`: position `i` of `x[idx]` is row `idx[i]`
of `x`. -/
theorem gather_getD {α : Type} (d : α) (x : List α) (idx : List ℕ) (i : ℕ)
    (hi : i < idx.length) :
    (gather d x idx).getD i d = x.getD idx[i] d := by
  simp only [gather]
  rw [List.getD_eq_getElem _ _ (by simpa using hi), List.getElem_map]

/-- Claim C4: shuffling a batch with a permutation of its index range and
unshuffling with the returned `argsort` index reconstructs the batch
exactly; moreover the returned inverse index is a two-sided inverse of
the shuffle index on the batch positions. -/
theorem shuffle_unshuffle_roundtrip {α : Type} (d : α) (x : List α)
    (idx : List ℕ) (hperm : idx.Perm (List.range x.length)) :
    batchUnshuffleSingleGpu d (batchShuffleSingleGpu d x idx).1
        (batchShuffleSingleGpu d x idx).2 = x
      ∧ (∀ j, j < x.length → idx.getD ((argsort idx).getD j 0) 0 = j)
      ∧ (∀ p, p < x.length → (argsort idx).getD (idx.getD p 0) 0 = p) := by
  have hlen : idx.length = x.length := by simpa using hperm.length_eq
  have hnodup : idx.Nodup := hperm.nodup_iff.mpr (List.nodup_range _)
  have hmem : ∀ j, j < x.length → j ∈ idx := fun j hj =>
    hperm.mem_iff.mpr (List.mem_range.mpr hj)
  have hio : ∀ j, j < x.length → idx.indexOf j < idx.length := fun j hj =>
    List.indexOf_lt_length.mpr (hmem j hj)
  have hidx_lt : ∀ (p : ℕ) (hp : p < idx.length), idx[p] < x.length := by
    intro p hp
    have hin : idx[p] ∈ idx := List.getElem_mem _
    exact List.mem_range.mp (hperm.mem_iff.mp hin)
  have hargs_getD : ∀ j, j < x.length →
      (argsort idx).getD j 0 = idx.indexOf j := by
    intro j hj
    have hj2 : j < (List.range idx.length).length := by
      simpa [hlen] using hj
    simp only [argsort]
    rw [List.getD_eq_getElem _ _ (by simpa using hj2), List.getElem_map]
    congr 1
    simp
  have hgetD_indexOf : ∀ j, j < x.length →
      idx.getD (idx.indexOf j) 0 = j := by
    intro j hj
    rw [List.getD_eq_getElem _ _ (hio j hj)]
    exact List.getElem_indexOf (hio j hj)
  refine ⟨?_, ?_, ?_⟩
  · simp only [batchUnshuffleSingleGpu, batchShuffleSingleGpu]
    apply List.ext_getElem
    · simp [gather, argsort, hlen]
    · intro p h1 h2
      have hp : p < x.length := h2
      have hpa : p < (argsort idx).length := by
        simp [argsort, hlen, hp]
      have e1 : (gather d (gather d x idx) (argsort idx))[p]
          = (gather d x idx).getD (argsort idx)[p] d := by
        simp only [gather]
        rw [List.getElem_map]
      have e2 : (argsort idx)[p] = idx.indexOf p := by
        have h3 := hargs_getD p hp
        rwa [List.getD_eq_getElem _ _ hpa] at h3
      have e3 : (gather d x idx).getD (idx.indexOf p) d = x.getD p d := by
        rw [gather_getD d x idx _ (hio p hp)]
        congr 1
        exact List.getElem_indexOf (hio p hp)
      rw [e1, e2, e3, List.getD_eq_getElem _ _ hp]
  · intro j hj
    rw [hargs_getD j hj, hgetD_indexOf j hj]
  · intro p hp
    have hpi : p < idx.length := by rw [hlen]; exact hp
    rw [List.getD_eq_getElem idx _ hpi]
    rw [hargs_getD _ (hidx_lt p hpi)]
    exact List.indexOf_getElem hnodup p hpi

/-- Witness for C4 on a concrete batch and permutation. -/
theorem shuffle_unshuffle_roundtrip_witness :
    ([2, 0, 1] : List ℕ).Perm (List.range ([10, 20, 30] : List ℕ).length)
      ∧ (batchUnshuffleSingleGpu 0 (batchShuffleSingleGpu 0 [10, 20, 30] [2, 0, 1]).1
            (batchShuffleSingleGpu 0 [10, 20, 30] [2, 0, 1]).2 = [10, 20, 30]
        ∧ (∀ j, j < ([10, 20, 30] : List ℕ).length →
            ([2, 0, 1] : List ℕ).getD ((argsort [2, 0, 1]).getD j 0) 0 = j)
        ∧ (∀ p, p < ([10, 20, 30] : List ℕ).length →
            (argsort [2, 0, 1]).getD (([2, 0, 1] : List ℕ).getD p 0) 0 = p)) :=
  ⟨by decide, shuffle_unshuffle_roundtrip 0 [10, 20, 30] [2, 0, 1] (by decide)⟩

end CSSL

namespace CSSL

/-- Claim C5: the contrastive logits form an `N × (1 + K_cap)` matrix
whose first column holds the per-sample positive dot products and whose
remaining columns hold the dot products against the queue columns, all
divided by the temperature; the ground-truth label is 0 for every row;
and an identical, unit-normalised query/key pair makes the positive
logit exactly `1 / T`. -/
theorem contrastiveLogits_spec (T : ℚ) (queue q k : List (List ℚ))
    (hk : k.length = q.length) :
    (contrastiveLogits T queue q k).length = q.length
      ∧ mocoLabels (contrastiveLogits T queue q k).length
          = List.replicate q.length 0
      ∧ (∀ l ∈ mocoLabels (contrastiveLogits T queue q k).length, l = 0)
      ∧ (∀ i, i < q.length →
          ((contrastiveLogits T queue q k).getD i []).length = 1 + queue.length
            ∧ ((contrastiveLogits T queue q k).getD i []).getD 0 0
                = dot (q.getD i []) (k.getD i []) / T
            ∧ (∀ j, j < queue.length →
                ((contrastiveLogits T queue q k).getD i []).getD (1 + j) 0
                  = dot (q.getD i []) (queue.getD j []) / T)
            ∧ (q.getD i [] = k.getD i [] → dot (q.getD i []) (q.getD i []) = 1 →
                ((contrastiveLogits T queue q k).getD i []).getD 0 0 = 1 / T)) := by
  have hlen : (contrastiveLogits T queue q k).length = q.length := by
    simp [contrastiveLogits, hk]
  refine ⟨hlen, by rw [hlen]; rfl, ?_, ?_⟩
  · intro l hl
    exact List.eq_of_mem_replicate hl
  · intro i hi
    have hik : i < k.length := by rw [hk]; exact hi
    have hiz : i < (contrastiveLogits T queue q k).length := by
      rw [hlen]; exact hi
    have hrow : (contrastiveLogits T queue q k).getD i []
        = (dot q[i] k[i] :: queue.map (fun col => dot q[i] col)).map
            (fun z => z / T) := by
      simp only [contrastiveLogits] at hiz ⊢
      rw [List.getD_eq_getElem _ _ hiz, List.getElem_zipWith]
    have hq : q.getD i [] = q[i] := List.getD_eq_getElem _ _ hi
    have hkk : k.getD i [] = k[i] := List.getD_eq_getElem _ _ hik
    refine ⟨?_, ?_, ?_, ?_⟩
    · rw [hrow]
      simp [Nat.add_comm]
    · rw [hrow, List.map_cons, List.getD_cons_zero, hq, hkk]
    · intro j hj
      rw [hrow, List.map_cons, Nat.add_comm 1 j, List.getD_cons_succ]
      have hjq : j < ((queue.map (fun col => dot q[i] col)).map
          (fun z => z / T)).length := by
        simp [hj]
      rw [List.getD_eq_getElem _ _ hjq, List.getElem_map, List.getElem_map]
      rw [hq, List.getD_eq_getElem _ _ hj]
    · intro heq hunit
      rw [hq, hkk] at heq
      rw [hq] at hunit
      rw [hrow, List.map_cons, List.getD_cons_zero, ← heq, hunit]

/-- Witness for C5 with two unit query/key rows and one queue column. -/
theorem contrastiveLogits_spec_witness :
    ([[(1:ℚ), 0], [0, 1]] : List (List ℚ)).length
        = ([[(1:ℚ), 0], [0, 1]] : List (List ℚ)).length
      ∧ (((contrastiveLogits 2 [[0, 1]] [[1, 0], [0, 1]] [[1, 0], [0, 1]]).length
            = ([[(1:ℚ), 0], [0, 1]] : List (List ℚ)).length)
        ∧ mocoLabels (contrastiveLogits 2 [[0, 1]] [[1, 0], [0, 1]]
              [[1, 0], [0, 1]]).length
            = List.replicate ([[(1:ℚ), 0], [0, 1]] : List (List ℚ)).length 0
        ∧ (∀ l ∈ mocoLabels (contrastiveLogits 2 [[0, 1]] [[1, 0], [0, 1]]
              [[1, 0], [0, 1]]).length, l = 0)
        ∧ (∀ i, i < ([[(1:ℚ), 0], [0, 1]] : List (List ℚ)).length →
            ((contrastiveLogits 2 [[0, 1]] [[1, 0], [0, 1]]
                [[1, 0], [0, 1]]).getD i []).length
                = 1 + ([[(0:ℚ), 1]] : List (List ℚ)).length
              ∧ ((contrastiveLogits 2 [[0, 1]] [[1, 0], [0, 1]]
                  [[1, 0], [0, 1]]).getD i []).getD 0 0
                  = dot (([[(1:ℚ), 0], [0, 1]] : List (List ℚ)).getD i [])
                      (([[(1:ℚ), 0], [0, 1]] : List (List ℚ)).getD i []) / 2
              ∧ (∀ j, j < ([[(0:ℚ), 1]] : List (List ℚ)).length →
                  ((contrastiveLogits 2 [[0, 1]] [[1, 0], [0, 1]]
                      [[1, 0], [0, 1]]).getD i []).getD (1 + j) 0
                    = dot (([[(1:ℚ), 0], [0, 1]] : List (List ℚ)).getD i [])
                        (([[(0:ℚ), 1]] : List (List ℚ)).getD j []) / 2)
              ∧ (([[(1:ℚ), 0], [0, 1]] : List (List ℚ)).getD i []
                    = ([[(1:ℚ), 0], [0, 1]] : List (List ℚ)).getD i [] →
                  dot (([[(1:ℚ), 0], [0, 1]] : List (List ℚ)).getD i [])
                      (([[(1:ℚ), 0], [0, 1]] : List (List ℚ)).getD i []) = 1 →
                  ((contrastiveLogits 2 [[0, 1]] [[1, 0], [0, 1]]
                      [[1, 0], [0, 1]]).getD i []).getD 0 0 = 1 / 2))) :=
  ⟨rfl, contrastiveLogits_spec 2 [[0, 1]] [[1, 0], [0, 1]] [[1, 0], [0, 1]] rfl⟩

/-- Claim C8: `Net.__init__` binds a head of input width 512, 512, 2048 or
1024 for the four recognised model-name tags and hits a fatal assertion
for any other tag (linear.py lines 16-45). -/
theorem netHeadWidth_spec :
    netHeadWidth "mocov1" = some 512
      ∧ netHeadWidth "mocov2" = some 512
      ∧ netHeadWidth "simclrv1" = some 2048
      ∧ netHeadWidth "simclrv2" = some 1024
      ∧ ∀ s : String, s ≠ "mocov1" → s ≠ "mocov2" → s ≠ "simclrv1" →
          s ≠ "simclrv2" → netHeadWidth s = none := by
  refine ⟨rfl, rfl, rfl, rfl, ?_⟩
  intro s h1 h2 h3 h4
  simp [netHeadWidth, h1, h2, h3, h4]

/-- Witness for C8 with an unrecognised tag. -/
theorem netHeadWidth_spec_witness :
    ("resnet50" ≠ "mocov1" ∧ "resnet50" ≠ "mocov2" ∧ "resnet50" ≠ "simclrv1"
        ∧ "resnet50" ≠ "simclrv2")
      ∧ netHeadWidth "resnet50" = none :=
  ⟨by decide,
    netHeadWidth_spec.2.2.2.2 "resnet50" (by decide) (by decide) (by decide)
      (by decide)⟩

/-- Claim C9 (against the code): `train_val` is defined with exactly the
three parameters `net`, `data_loader`, `train_optimizer` — no scheduler
parameter — while the per-epoch training call passes four positional
arguments including the scheduler, so the call cannot bind and raises
`TypeError` instead of succeeding with an unused scheduler. -/
theorem trainVal_call_arity_mismatch :
    trainValParams.length = 3
      ∧ trainValCallArgs.length = 4
      ∧ pythonCallBinds trainValParams trainValCallArgs = false
      ∧ "scheduler" ∉ trainValParams := by
  decide

/-- Claim C10: the `MoCov1` and `MoCov2` translations of the momentum
update, the queue enqueue, the batch shuffle and unshuffle, the logit
assembly, the contrastive loss and the symmetric forward step are
extensionally equal — for equal hyperparameters and equal encoder
outputs the two classes' step mechanics coincide, the classes differing
only in the wrapped encoder architecture. -/
theorem mocov1_mocov2_equiv :
    (∀ (m : ℚ) (qs ks : List (List ℚ)),
        momentumUpdateKeyEncoderV2 m qs ks = momentumUpdateKeyEncoder m qs ks)
      ∧ (∀ (K : ℕ) (keys : List (List ℚ)) (s : QueueState),
          dequeueAndEnqueueV2 K keys s = dequeueAndEnqueue K keys s)
      ∧ (∀ (α : Type) (d : α) (x : List α) (idx : List ℕ),
          batchShuffleSingleGpuV2 d x idx = batchShuffleSingleGpu d x idx)
      ∧ (∀ (α : Type) (d : α) (x : List α) (idx : List ℕ),
          batchUnshuffleSingleGpuV2 d x idx = batchUnshuffleSingleGpu d x idx)
      ∧ (∀ (T : ℚ) (queue q k : List (List ℚ)),
          contrastiveLogitsV2 T queue q k = contrastiveLogits T queue q k)
      ∧ (∀ (S : Type) (enc : List (List ℚ) → List S → List (List ℚ)) (dS : S)
          (σ : List ℕ) (st : MoCoState) (imQ imK : List S),
          contrastiveLossV2 enc dS σ st imQ imK
            = contrastiveLoss enc dS σ st imQ imK)
      ∧ (∀ (S : Type) (enc : List (List ℚ) → List S → List (List ℚ)) (dS : S)
          (σ1 σ2 : List ℕ) (st : MoCoState) (im1 im2 : List S),
          mocoForwardV2 enc dS σ1 σ2 st im1 im2
            = mocoForward enc dS σ1 σ2 st im1 im2) :=
  ⟨fun _ _ _ => rfl, fun _ _ _ => rfl, fun _ _ _ _ => rfl, fun _ _ _ _ => rfl,
    fun _ _ _ _ => rfl, fun _ _ _ _ _ _ _ => rfl, fun _ _ _ _ _ _ _ _ => rfl⟩

end CSSL

namespace CSSL

/-- Length of the key batch returned by `contrastive_loss`: one row per
entry of the shuffle permutation. -/
theorem contrastiveLoss_key_length {S : Type}
    (enc : List (List ℚ) → List S → List (List ℚ)) (dS : S) (σ : List ℕ)
    (st : MoCoState) (imQ imK : List S) :
    (contrastiveLoss enc dS σ st imQ imK).2.2.length = σ.length := by
  simp [contrastiveLoss, batchUnshuffleSingleGpu, batchShuffleSingleGpu,
    gather, argsort]

/-- Claim C6: with batch size `N` per view and an enqueueable pointer
position, one forward step returns the sum of the two symmetric
contrastive losses and performs exactly one enqueue of the two
concatenated key batches, advancing the pointer to
`(ptr + 2N) % K` while the key parameters take one momentum update. -/
theorem mocoForward_symmetric_step {S : Type}
    (enc : List (List ℚ) → List S → List (List ℚ)) (dS : S) (σ1 σ2 : List ℕ)
    (st : MoCoState) (im1 im2 : List S) (N : ℕ)
    (hσ1 : σ1.length = N) (hσ2 : σ2.length = N) (hN : 0 < N)
    (hdiv : st.K % (2 * N) = 0) (hptr : st.ptr + 2 * N ≤ st.K) :
    mocoForward enc dS σ1 σ2 st im1 im2
      = some
        ( (contrastiveLoss enc dS σ1 (momentumStep st) im1 im2).1
            + (contrastiveLoss enc dS σ2 (momentumStep st) im2 im1).1
        , { momentumStep st with
              queue := st.queue.take st.ptr
                ++ ((contrastiveLoss enc dS σ2 (momentumStep st) im2 im1).2.2
                    ++ (contrastiveLoss enc dS σ1 (momentumStep st) im1 im2).2.2)
                ++ st.queue.drop (st.ptr + 2 * N)
              ptr := (st.ptr + 2 * N) % st.K } ) := by
  have hk1 : (contrastiveLoss enc dS σ2 (momentumStep st) im2 im1).2.2.length
      = N := by rw [contrastiveLoss_key_length, hσ2]
  have hk2 : (contrastiveLoss enc dS σ1 (momentumStep st) im1 im2).2.2.length
      = N := by rw [contrastiveLoss_key_length, hσ1]
  have hkeys : ((contrastiveLoss enc dS σ2 (momentumStep st) im2 im1).2.2
      ++ (contrastiveLoss enc dS σ1 (momentumStep st) im1 im2).2.2).length
      = 2 * N := by
    rw [List.length_append, hk1, hk2, two_mul]
  have henq : dequeueAndEnqueue st.K
      ((contrastiveLoss enc dS σ2 (momentumStep st) im2 im1).2.2
        ++ (contrastiveLoss enc dS σ1 (momentumStep st) im1 im2).2.2)
      ⟨st.queue, st.ptr⟩
      = some ⟨st.queue.take st.ptr
          ++ ((contrastiveLoss enc dS σ2 (momentumStep st) im2 im1).2.2
              ++ (contrastiveLoss enc dS σ1 (momentumStep st) im1 im2).2.2)
          ++ st.queue.drop (st.ptr + 2 * N), (st.ptr + 2 * N) % st.K⟩ := by
    have hcond : 0 < ((contrastiveLoss enc dS σ2 (momentumStep st) im2 im1).2.2
        ++ (contrastiveLoss enc dS σ1 (momentumStep st) im1 im2).2.2).length
        ∧ st.K % ((contrastiveLoss enc dS σ2 (momentumStep st) im2 im1).2.2
          ++ (contrastiveLoss enc dS σ1 (momentumStep st) im1 im2).2.2).length = 0
        ∧ st.ptr + ((contrastiveLoss enc dS σ2 (momentumStep st) im2 im1).2.2
          ++ (contrastiveLoss enc dS σ1 (momentumStep st) im1 im2).2.2).length
            ≤ st.K := by
      rw [hkeys]
      exact ⟨by omega, hdiv, hptr⟩
    simp only [dequeueAndEnqueue]
    rw [if_pos hcond, hkeys]
  show (match dequeueAndEnqueue (momentumStep st).K
      ((contrastiveLoss enc dS σ2 (momentumStep st) im2 im1).2.2
        ++ (contrastiveLoss enc dS σ1 (momentumStep st) im1 im2).2.2)
      ⟨(momentumStep st).queue, (momentumStep st).ptr⟩ with
    | some qs =>
        some ((contrastiveLoss enc dS σ1 (momentumStep st) im1 im2).1
            + (contrastiveLoss enc dS σ2 (momentumStep st) im2 im1).1,
          { momentumStep st with queue := qs.queue, ptr := qs.ptr })
    | none => none) = _
  rw [show dequeueAndEnqueue (momentumStep st).K
      ((contrastiveLoss enc dS σ2 (momentumStep st) im2 im1).2.2
        ++ (contrastiveLoss enc dS σ1 (momentumStep st) im1 im2).2.2)
      ⟨(momentumStep st).queue, (momentumStep st).ptr⟩
    = dequeueAndEnqueue st.K
      ((contrastiveLoss enc dS σ2 (momentumStep st) im2 im1).2.2
        ++ (contrastiveLoss enc dS σ1 (momentumStep st) im1 im2).2.2)
      ⟨st.queue, st.ptr⟩ from rfl, henq]

end CSSL

namespace CSSL

/-- Witness for C6: a two-column queue, batch size one per view, identity
encoder. -/
theorem mocoForward_symmetric_step_witness :
    (([0] : List ℕ).length = 1 ∧ ([0] : List ℕ).length = 1 ∧ 0 < 1
        ∧ (MoCoState.mk 2 (1/2) 1 [[1]] [[0]] [[5], [6]] 0).K % (2 * 1) = 0
        ∧ (MoCoState.mk 2 (1/2) 1 [[1]] [[0]] [[5], [6]] 0).ptr + 2 * 1
            ≤ (MoCoState.mk 2 (1/2) 1 [[1]] [[0]] [[5], [6]] 0).K)
      ∧ mocoForward (fun _ x => x) ([] : List ℚ) [0] [0]
          (MoCoState.mk 2 (1/2) 1 [[1]] [[0]] [[5], [6]] 0) [[7]] [[8]]
        = some
          ( (contrastiveLoss (fun _ x => x) ([] : List ℚ) [0]
                (momentumStep (MoCoState.mk 2 (1/2) 1 [[1]] [[0]] [[5], [6]] 0))
                [[7]] [[8]]).1
              + (contrastiveLoss (fun _ x => x) ([] : List ℚ) [0]
                (momentumStep (MoCoState.mk 2 (1/2) 1 [[1]] [[0]] [[5], [6]] 0))
                [[8]] [[7]]).1
          , { momentumStep (MoCoState.mk 2 (1/2) 1 [[1]] [[0]] [[5], [6]] 0) with
                queue :=
                  (MoCoState.mk 2 (1/2) 1 [[1]] [[0]] [[5], [6]] 0).queue.take
                      (MoCoState.mk 2 (1/2) 1 [[1]] [[0]] [[5], [6]] 0).ptr
                    ++ ((contrastiveLoss (fun _ x => x) ([] : List ℚ) [0]
                          (momentumStep
                            (MoCoState.mk 2 (1/2) 1 [[1]] [[0]] [[5], [6]] 0))
                          [[8]] [[7]]).2.2
                        ++ (contrastiveLoss (fun _ x => x) ([] : List ℚ) [0]
                          (momentumStep
                            (MoCoState.mk 2 (1/2) 1 [[1]] [[0]] [[5], [6]] 0))
                          [[7]] [[8]]).2.2)
                    ++ (MoCoState.mk 2 (1/2) 1 [[1]] [[0]] [[5], [6]] 0).queue.drop
                      ((MoCoState.mk 2 (1/2) 1 [[1]] [[0]] [[5], [6]] 0).ptr + 2 * 1)
                ptr := ((MoCoState.mk 2 (1/2) 1 [[1]] [[0]] [[5], [6]] 0).ptr + 2 * 1)
                    % (MoCoState.mk 2 (1/2) 1 [[1]] [[0]] [[5], [6]] 0).K } ) :=
  ⟨by decide,
    mocoForward_symmetric_step (fun _ x => x) ([] : List ℚ) [0] [0]
      (MoCoState.mk 2 (1/2) 1 [[1]] [[0]] [[5], [6]] 0) [[7]] [[8]] 1
      (by decide) (by decide) (by decide) (by decide) (by decide)⟩

end CSSL
